import Mathlib

/-!
Shallow embedding of the espanso configuration engine from
src/config/mod.rs: the `Configs` document record with its serde
defaults, the reserved-field validator, the trigger-keyed merge
operations `merge_config` and `merge_default`, the recursive tree
reduction `reduce_configs`, and the post-parse part of the
`ConfigSet::load` pipeline (indexing, reduction, partitioning and
default injection).  Filesystem walking and YAML parsing are outside
the embedding: `loadModel` receives the default document and the
already-parsed collected documents (path string plus parsed record),
which is the state of `ConfigSet::load` at the start of its per-entry
loop.  The unbounded recursion of `reduce_configs` is embedded with an
explicit fuel parameter: `none` means the recursion depth exceeded the
fuel, so divergence of the source function is `none` at every fuel.
-/

namespace Espanso

/-- Modelled from the spec: the `KeyModifier` type lives in the event
module, which is not among the given sources.  The configuration code
only uses its decidable equality and its default value, so it is
embedded as a plain enumeration of modifier keys with a fixed default
(the spec only says toggle_key has a platform default; no theorem
below depends on which constructor is the default). -/
inductive KeyModifier where
  | ALT
  | CTRL
  | SHIFT
  | META
deriving DecidableEq

def KeyModifier.default : KeyModifier := KeyModifier.ALT

/-- Backend used to inject expansions, `BackendType` in the source.
The source default is platform dependent (Inject outside Linux,
Clipboard on Linux); the embedding fixes the non-Linux default, and no
theorem below depends on the choice. -/
inductive BackendType where
  | Inject
  | Clipboard
deriving DecidableEq

def BackendType.default : BackendType := BackendType.Inject

/-- Modelled from the spec: the matcher module's `Match` record is not
among the given sources; the spec describes a rule as a trigger to
replacement record, and the configuration code only reads the
`trigger` field and moves whole records around. -/
structure Match where
  trigger : String
  replace : String
deriving DecidableEq

/- Default values for primitives (lines 43-58 of the source). -/

def default_name : String := "default"

def default_parent : String := "self"

def default_filter_title : String := ""

def default_filter_class : String := ""

def default_filter_exec : String := ""

def default_disabled : Bool := false

def default_log_level : Int := 0

def default_ipc_server_port : Int := 34982

def default_use_system_agent : Bool := true

def default_force_alternative_paste_shortcut : Bool := false

def default_config_caching_interval : Int := 800

def default_word_separators : List Char := [' ', ',', '.', '\r', '\n', Char.ofNat 22]

def default_toggle_interval : Nat := 230

def default_backspace_limit : Int := 3

def default_exclude_default_matches : Bool := false

def default_matches : List Match := []

/-- One configuration document after parsing and default filling
(struct `Configs` in the source).  Machine integers i32/u32 are
embedded as Int/Nat: the engine only ever compares them for equality,
so overflow never matters. -/
structure Configs where
  name : String
  parent : String
  filter_title : String
  filter_class : String
  filter_exec : String
  disabled : Bool
  log_level : Int
  ipc_server_port : Int
  use_system_agent : Bool
  config_caching_interval : Int
  word_separators : List Char
  toggle_key : KeyModifier
  toggle_interval : Nat
  backspace_limit : Int
  backend : BackendType
  force_alternative_paste_shortcut : Bool
  exclude_default_matches : Bool
  matches' : List Match
deriving DecidableEq

/-- The record every optional field of which carries its documented
default: what serde produces for a document that declares nothing. -/
def defaultConfigs : Configs :=
  { name := default_name, parent := default_parent,
    filter_title := default_filter_title, filter_class := default_filter_class,
    filter_exec := default_filter_exec, disabled := default_disabled,
    log_level := default_log_level, ipc_server_port := default_ipc_server_port,
    use_system_agent := default_use_system_agent,
    config_caching_interval := default_config_caching_interval,
    word_separators := default_word_separators, toggle_key := KeyModifier.default,
    toggle_interval := default_toggle_interval, backspace_limit := default_backspace_limit,
    backend := BackendType.default,
    force_alternative_paste_shortcut := default_force_alternative_paste_shortcut,
    exclude_default_matches := default_exclude_default_matches,
    matches' := default_matches }

/-- One expansion of the source's field-checking construct: when the
field differs from its documented default the result flag drops to
`false` and the field name is appended to the error log (the source
logs through the error channel; the log list embeds that channel). -/
def validate_field (st : Bool × List String) (field_name : String) (is_default : Bool) :
    Bool × List String :=
  if is_default then st else (false, st.2 ++ [field_name])

/-- `Configs::validate_user_defined_config` together with its error
log: checks the seven reserved fields in source order, never stopping
early. -/
def validate_user_defined_config_logged (c : Configs) : Bool × List String :=
  let st := (true, ([] : List String))
  let st := validate_field st ("config_caching_interval")
    (decide (c.config_caching_interval = default_config_caching_interval))
  let st := validate_field st ("log_level") (decide (c.log_level = default_log_level))
  let st := validate_field st ("toggle_key") (decide (c.toggle_key = KeyModifier.default))
  let st := validate_field st ("toggle_interval")
    (decide (c.toggle_interval = default_toggle_interval))
  let st := validate_field st ("backspace_limit")
    (decide (c.backspace_limit = default_backspace_limit))
  let st := validate_field st ("ipc_server_port")
    (decide (c.ipc_server_port = default_ipc_server_port))
  let st := validate_field st ("use_system_agent")
    (decide (c.use_system_agent = default_use_system_agent))
  st

/-- The boolean the source function returns. -/
def validate_user_defined_config (c : Configs) : Bool :=
  (validate_user_defined_config_logged c).1

/-- Declarative table of the seven reserved-field checks, in source
order: field name paired with whether the field equals its default. -/
def reserved_field_checks (c : Configs) : List (String × Bool) :=
  [(("config_caching_interval"), decide (c.config_caching_interval = default_config_caching_interval)),
   (("log_level"), decide (c.log_level = default_log_level)),
   (("toggle_key"), decide (c.toggle_key = KeyModifier.default)),
   (("toggle_interval"), decide (c.toggle_interval = default_toggle_interval)),
   (("backspace_limit"), decide (c.backspace_limit = default_backspace_limit)),
   (("ipc_server_port"), decide (c.ipc_server_port = default_ipc_server_port)),
   (("use_system_agent"), decide (c.use_system_agent = default_use_system_agent))]

/-- Insertion into a hash set of strings, embedded as a duplicate-free
list: membership semantics agree with `HashSet::insert`. -/
def hsInsert (s : List String) (x : String) : List String :=
  if x ∈ s then s else x :: s

/-- The trigger set a merge builds from a rule list
(`matches.iter().for_each(insert)` in the source). -/
def trigger_set_of (ms : List Match) : List String :=
  ms.foldl (fun s m => hsInsert s m.trigger) []

/-- `Configs::merge_config` (source lines 201-213): merge `new_config`
(a fully reduced child) into `self` (the parent).  The child's rules
come first; the parent keeps only rules whose trigger the child does
not define. -/
def merge_config (self new_config : Configs) : Configs :=
  let trigger_set := trigger_set_of new_config.matches'
  let parent_matches := self.matches'.filter (fun m => !(trigger_set.contains m.trigger))
  { self with matches' := new_config.matches' ++ parent_matches }

/-- `Configs::merge_default` (source lines 215-225): append to `self`
those default rules whose trigger `self` does not already define. -/
def merge_default (self default : Configs) : Configs :=
  let trigger_set := trigger_set_of self.matches'
  let default_matches := default.matches'.filter (fun m => !(trigger_set.contains m.trigger))
  { self with matches' := self.matches' ++ default_matches }

/-- `ConfigLoadError` from the source; paths are path strings. -/
inductive ConfigLoadError where
  | FileNotFound
  | UnableToReadFile
  | InvalidYAML (path : String) (detail : String)
  | InvalidConfigDirectory
  | InvalidParameter (path : String)
  | NameDuplicate (path : String)
  | UnableToCreateDefaultConfig
deriving DecidableEq

/-- The resolved output `ConfigSet`: one default config plus the
specific configs. -/
structure ConfigSet where
  default : Configs
  specific : List Configs
deriving DecidableEq

/-- The children map of `ConfigSet::load`: parent name to the bucket
of children configs, in registration order.  The source `HashMap` is
only ever read by key lookup, never iterated, so an association list
with the same lookup semantics is a faithful embedding. -/
abbrev ChildrenMap := List (String × List Configs)

def childLookup : ChildrenMap → String → Option (List Configs)
  | [], _ => none
  | (k, cs) :: rest, n => if k = n then some cs else childLookup rest n

/-- `children_map.entry(parent).or_default().push(config)`. -/
def mapInsert : ChildrenMap → String → Configs → ChildrenMap
  | [], k, c => [(k, [c])]
  | (k', cs) :: rest, k, c =>
    if k' = k then (k', cs ++ [c]) :: rest else (k', cs) :: mapInsert rest k c

/-- The loop body of `ConfigSet::reduce_configs`: merge each (already
reduced) child of the bucket into the target, in bucket order. -/
def reduce_children (f : Configs → Option Configs) : Configs → List Configs → Option Configs
  | target, [] => some target
  | target, c :: rest =>
    match f c with
    | none => none
    | some r => reduce_children f (merge_config target r) rest

/-- `ConfigSet::reduce_configs` (source lines 328-339) with a fuel
parameter bounding the recursion depth; `none` means the source
function would still be recursing at that depth, so divergence is
`none` at every fuel. -/
def reduce_configs : Nat → Configs → ChildrenMap → Option Configs
  | 0, _, _ => none
  | Nat.succ fuel, target, children_map =>
    match childLookup children_map target.name with
    | none => some target
    | some children =>
      reduce_children (fun c => reduce_configs fuel c children_map) target children

/-- The effective name a collected document receives (source lines
282-285): a parsed name equal to the literal default name is replaced
by the document's own path string. -/
def resolved_name (path : String) (config : Configs) : String :=
  if config.name = ("default") then path else config.name

/-- The per-entry loop of `ConfigSet::load` (source lines 266-302):
validate, resolve the name, reject duplicates, then file the config as
a root or into its parent's children bucket.  The name set, children
map and root list are the loop's accumulators; `root_configs` starts
as `[default]` in the caller. -/
def processEntries :
    List (String × Configs) → List String → ChildrenMap → List Configs →
    Except ConfigLoadError (ChildrenMap × List Configs)
  | [], _, children_map, root_configs => Except.ok (children_map, root_configs)
  | (path, config) :: rest, name_set, children_map, root_configs =>
    if validate_user_defined_config config = false then
      Except.error (ConfigLoadError.InvalidParameter path)
    else
      let config2 : Configs := { config with name := resolved_name path config }
      if name_set.contains (resolved_name path config) then
        Except.error (ConfigLoadError.NameDuplicate path)
      else if config.parent = ("self") then
        processEntries rest (resolved_name path config :: name_set) children_map
          (root_configs ++ [config2])
      else
        processEntries rest (resolved_name path config :: name_set)
          (mapInsert children_map config.parent config2) root_configs

/-- The reduction loop of `ConfigSet::load` (source lines 305-309):
reduce every root config against the children map, in root order. -/
def mapReduce (fuel : Nat) (children_map : ChildrenMap) : List Configs → Option (List Configs)
  | [] => some []
  | c :: rest =>
    match reduce_configs fuel c children_map with
    | none => none
    | some r =>
      match mapReduce fuel children_map rest with
      | none => none
      | some rs => some (r :: rs)

/-- The default-injection step applied to one specific config (source
lines 316-320). -/
def injectOne (default config : Configs) : Configs :=
  if config.exclude_default_matches then config else merge_default config default

/-- Source lines 311-325: the first reduced root becomes the default,
the rest become the specific list after default injection.  The root
list always starts with the default document, so the empty case is
unreachable. -/
def partition_and_inject : List Configs → Option ConfigSet
  | [] => none
  | d :: rest => some { default := d, specific := rest.map (injectOne d) }

/-- The post-parse part of `ConfigSet::load`: entries are the
collected documents (path string plus parsed record) in walk order,
already filtered to the accepted extension and successfully parsed.
`none` means the reduction exceeded the fuel. -/
def loadModel (default_config : Configs) (entries : List (String × Configs)) (fuel : Nat) :
    Option (Except ConfigLoadError ConfigSet) :=
  match processEntries entries [] [] [default_config] with
  | Except.error e => some (Except.error e)
  | Except.ok (children_map, root_configs) =>
    match mapReduce fuel children_map root_configs with
    | none => none
    | some configs => (partition_and_inject configs).map Except.ok

/-- The parent-child edge relation on names induced by a children map:
`childEdge m b a` holds when the bucket of `a` holds a config named
`b`; it is the relation `reduce_configs` recurses along.  The map is
cycle-free exactly when this relation is well founded. -/
def childEdge (m : ChildrenMap) (b a : String) : Prop :=
  ∃ cs c, childLookup m a = some cs ∧ c ∈ cs ∧ Configs.name c = b

/-- Spec-level list of triggers of a rule list, in order. -/
def triggersOf (ms : List Match) : List String := ms.map Match.trigger

/-- The rule a rule list defines for a trigger: the first record with
that trigger. -/
def find_by_trigger (ms : List Match) (t : String) : Option Match :=
  ms.find? (fun m => decide (m.trigger = t))

/- Concrete documents used by witnesses and counterexamples; the rule
lists reuse the triggers of the source's own tests. -/

/-- A default document with two rules. -/
def parentExample : Configs :=
  { defaultConfigs with matches' := [⟨(":lol"), ("LOL")⟩, ⟨(":yess"), ("Bob")⟩] }

/-- A child document overriding the trigger ":lol". -/
def childExample : Configs :=
  { defaultConfigs with matches' := [⟨(":lol"), ("newstring")⟩] }

/-- A document whose trigger set is disjoint from `parentExample`. -/
def helloExample : Configs :=
  { defaultConfigs with matches' := [⟨("hello"), ("newstring")⟩] }

/-- A document that opts out of default injection. -/
def excludeExample : Configs :=
  { defaultConfigs with
    exclude_default_matches := true, matches' := [⟨("hello"), ("x")⟩] }

/-- First half of a parent-reference cycle: named A, parent B. -/
def cycConfigA : Configs := { defaultConfigs with name := ("A"), parent := ("B") }

/-- Second half of the cycle: named B, parent A. -/
def cycConfigB : Configs := { defaultConfigs with name := ("B"), parent := ("A") }

/-- The children map `ConfigSet::load` builds from the two cycle
documents. -/
def cycMap : ChildrenMap := [(("B"), [cycConfigA]), (("A"), [cycConfigB])]

/-- A default document that declares the custom name "foo". -/
def fooDefault : Configs := { defaultConfigs with name := ("foo") }

/-- A collected document that also declares the name "foo". -/
def fooUser : Configs := { defaultConfigs with name := ("foo") }

/-- A collected document setting a reserved field. -/
def badReserved : Configs := { defaultConfigs with log_level := 1 }

/-- A collected document that declares no name (so its parsed name is
the serde default "default") and one rule. -/
def noNameDoc : Configs :=
  { defaultConfigs with matches' := [⟨("hello"), ("world")⟩] }

/-- A collected document declaring the name "x", used twice to force a
duplicate. -/
def dupX : Configs := { defaultConfigs with name := ("x") }

deriving instance DecidableEq for Except

/-! ## Lemmas about trigger sets and the merge operations -/

theorem mem_hsInsert (s : List String) (y x : String) :
    x ∈ hsInsert s y ↔ x = y ∨ x ∈ s := by
  unfold hsInsert
  split
  · rename_i h
    constructor
    · exact Or.inr
    · rintro (rfl | hx)
      · exact h
      · exact hx
  · exact List.mem_cons

theorem mem_foldl_hsInsert (ms : List Match) :
    ∀ (acc : List String) (x : String),
      x ∈ ms.foldl (fun s m => hsInsert s m.trigger) acc ↔ x ∈ acc ∨ x ∈ triggersOf ms := by
  induction ms with
  | nil => intro acc x; simp [triggersOf]
  | cons m rest ih =>
    intro acc x
    simp only [List.foldl_cons]
    rw [ih, mem_hsInsert]
    simp only [triggersOf, List.map_cons, List.mem_cons]
    tauto

theorem mem_trigger_set_of (ms : List Match) (x : String) :
    x ∈ trigger_set_of ms ↔ x ∈ triggersOf ms := by
  unfold trigger_set_of
  rw [mem_foldl_hsInsert]
  simp

theorem not_contains_trigger_set (ms : List Match) (x : String) :
    (!((trigger_set_of ms).contains x)) = decide (¬ x ∈ triggersOf ms) := by
  have h2 : (trigger_set_of ms).contains x = decide (x ∈ trigger_set_of ms) :=
    List.elem_eq_mem x (trigger_set_of ms)
  have h1 : (trigger_set_of ms).contains x = decide (x ∈ triggersOf ms) := by
    rw [h2]
    exact decide_eq_decide.mpr (mem_trigger_set_of ms x)
  rw [h1, decide_not]

theorem merge_config_matches (p c : Configs) :
    (merge_config p c).matches' =
      c.matches' ++ p.matches'.filter (fun m => decide (¬ m.trigger ∈ triggersOf c.matches')) := by
  show c.matches' ++
      p.matches'.filter (fun m => !((trigger_set_of c.matches').contains m.trigger)) =
    c.matches' ++ p.matches'.filter (fun m => decide (¬ m.trigger ∈ triggersOf c.matches'))
  congr 1
  apply List.filter_congr
  intro m _
  exact not_contains_trigger_set c.matches' m.trigger

theorem merge_default_matches (s d : Configs) :
    (merge_default s d).matches' =
      s.matches' ++ d.matches'.filter (fun m => decide (¬ m.trigger ∈ triggersOf s.matches')) := by
  show s.matches' ++
      d.matches'.filter (fun m => !((trigger_set_of s.matches').contains m.trigger)) =
    s.matches' ++ d.matches'.filter (fun m => decide (¬ m.trigger ∈ triggersOf s.matches'))
  congr 1
  apply List.filter_congr
  intro m _
  exact not_contains_trigger_set s.matches' m.trigger

theorem find_append_of_exists {l1 l2 : List Match} {t : String}
    (h : ∃ m ∈ l1, m.trigger = t) :
    find_by_trigger (l1 ++ l2) t = find_by_trigger l1 t := by
  induction l1 with
  | nil =>
    obtain ⟨m, hm, _⟩ := h
    cases hm
  | cons a rest ih =>
    unfold find_by_trigger
    rw [List.cons_append]
    cases hd : decide (a.trigger = t) with
    | true =>
      rw [@List.find?_cons_of_pos Match (fun m => decide (m.trigger = t)) a (rest ++ l2) hd,
        @List.find?_cons_of_pos Match (fun m => decide (m.trigger = t)) a rest hd]
    | false =>
      have hneg : ¬((fun (m : Match) => decide (m.trigger = t)) a = true) := by simp [hd]
      rw [@List.find?_cons_of_neg Match (fun m => decide (m.trigger = t)) a (rest ++ l2) hneg,
        @List.find?_cons_of_neg Match (fun m => decide (m.trigger = t)) a rest hneg]
      apply ih
      obtain ⟨m, hm, hmt⟩ := h
      rcases List.mem_cons.mp hm with rfl | hm'
      · exact absurd hmt (of_decide_eq_false hd)
      · exact ⟨m, hm', hmt⟩

theorem filter_own_triggers_nil (c : List Match) :
    c.filter (fun m => !((trigger_set_of c).contains m.trigger)) = [] := by
  apply List.filter_eq_nil_iff.mpr
  intro m hm
  rw [not_contains_trigger_set]
  simp only [decide_eq_true_eq, not_not]
  exact List.mem_map_of_mem Match.trigger hm

/-! ## Claims about the merge operations -/

/-- C1: trigger-override law.  At every merge step, a rule list that
defines the trigger `t` keeps its own rule for `t` in the merged
result: merging a child into a parent (`merge_config`) and injecting
default rules into a specific config (`merge_default`) both leave the
lookup of `t` exactly as it was in the overriding side, so the
inherited rule never wins. -/
theorem C1_trigger_override_law :
    (∀ (p c : Configs) (t : String), (∃ m ∈ c.matches', m.trigger = t) →
      find_by_trigger (merge_config p c).matches' t = find_by_trigger c.matches' t) ∧
    (∀ (s d : Configs) (t : String), (∃ m ∈ s.matches', m.trigger = t) →
      find_by_trigger (merge_default s d).matches' t = find_by_trigger s.matches' t) := by
  constructor
  · intro p c t h
    rw [merge_config_matches]
    exact find_append_of_exists h
  · intro s d t h
    rw [merge_default_matches]
    exact find_append_of_exists h

/-- Witness for C1 at the triggers of the source's own override test:
the child's rule for ":lol" survives both merge steps. -/
theorem C1_trigger_override_law_witness :
    find_by_trigger (merge_config parentExample childExample).matches' (":lol") =
      find_by_trigger childExample.matches' (":lol") ∧
    find_by_trigger (merge_default childExample parentExample).matches' (":lol") =
      find_by_trigger childExample.matches' (":lol") :=
  ⟨C1_trigger_override_law.1 parentExample childExample (":lol") (by decide),
   C1_trigger_override_law.2 childExample parentExample (":lol") (by decide)⟩

/-- C2: merge postcondition.  Merging child `c` into parent `p` yields
exactly `c`'s rules (in order) followed by those rules of `p` (in
order) whose trigger `c` does not define; when the trigger sets are
disjoint the result is the plain concatenation and its length is the
sum of the lengths. -/
theorem C2_merge_postcondition (p c : Configs) :
    (merge_config p c).matches' =
      c.matches' ++
        p.matches'.filter (fun m => decide (¬ m.trigger ∈ triggersOf c.matches')) ∧
    ((∀ t ∈ triggersOf c.matches', ¬ t ∈ triggersOf p.matches') →
      (merge_config p c).matches' = c.matches' ++ p.matches' ∧
      (merge_config p c).matches'.length = c.matches'.length + p.matches'.length) := by
  refine ⟨merge_config_matches p c, ?_⟩
  intro hdisj
  have hfil :
      p.matches'.filter (fun m => decide (¬ m.trigger ∈ triggersOf c.matches')) =
        p.matches' := by
    apply List.filter_eq_self.mpr
    intro m hm
    simp only [decide_eq_true_eq]
    intro hmem
    exact hdisj m.trigger hmem (List.mem_map_of_mem Match.trigger hm)
  refine ⟨?_, ?_⟩
  · rw [merge_config_matches, hfil]
  · rw [merge_config_matches, hfil, List.length_append]

/-- Witness for C2 at two concrete disjoint documents. -/
theorem C2_merge_postcondition_witness :
    (merge_config parentExample helloExample).matches' =
      helloExample.matches' ++ parentExample.matches' ∧
    (merge_config parentExample helloExample).matches'.length =
      helloExample.matches'.length + parentExample.matches'.length :=
  (C2_merge_postcondition parentExample helloExample).2 (by decide)

/-- C5: exclusion law.  A specific config with the exclusion flag set
is returned unchanged by the default-injection step, so its final rule
list has no rule beyond its own reduced set; and the partitioning step
never touches the default config itself, whatever the specific list
is. -/
theorem C5_exclusion_law :
    (∀ d c : Configs, c.exclude_default_matches = true → injectOne d c = c) ∧
    (∀ d c : Configs, c.exclude_default_matches = true →
      ∀ m ∈ (injectOne d c).matches', m ∈ c.matches') ∧
    (∀ (d : Configs) (rest : List Configs) (cs : ConfigSet),
      partition_and_inject (d :: rest) = some cs → cs.default = d) := by
  refine ⟨?_, ?_, ?_⟩
  · intro d c h
    unfold injectOne
    rw [if_pos h]
  · intro d c h m hm
    unfold injectOne at hm
    rw [if_pos h] at hm
    exact hm
  · intro d rest cs h
    simp only [partition_and_inject, Option.some.injEq] at h
    rw [← h]

/-- Witness for C5 at a concrete excluded document. -/
theorem C5_exclusion_law_witness :
    injectOne parentExample excludeExample = excludeExample ∧
    (⟨("hello"), ("x")⟩ : Match) ∈ excludeExample.matches' ∧
    (ConfigSet.mk parentExample [excludeExample]).default = parentExample :=
  ⟨C5_exclusion_law.1 parentExample excludeExample (by decide),
   C5_exclusion_law.2.1 parentExample excludeExample (by decide) ⟨("hello"), ("x")⟩ (by decide),
   C5_exclusion_law.2.2 parentExample [excludeExample]
     (ConfigSet.mk parentExample [excludeExample]) (by decide)⟩

/-- C7: frame condition.  Both merge operations change only the rule
list of their target: every other field of the result equals the
corresponding field of the target, exactly as parsed. -/
theorem C7_merge_frame_condition :
    (∀ p c : Configs,
      (merge_config p c).name = p.name ∧
      (merge_config p c).parent = p.parent ∧
      (merge_config p c).filter_title = p.filter_title ∧
      (merge_config p c).filter_class = p.filter_class ∧
      (merge_config p c).filter_exec = p.filter_exec ∧
      (merge_config p c).disabled = p.disabled ∧
      (merge_config p c).log_level = p.log_level ∧
      (merge_config p c).ipc_server_port = p.ipc_server_port ∧
      (merge_config p c).use_system_agent = p.use_system_agent ∧
      (merge_config p c).config_caching_interval = p.config_caching_interval ∧
      (merge_config p c).word_separators = p.word_separators ∧
      (merge_config p c).toggle_key = p.toggle_key ∧
      (merge_config p c).toggle_interval = p.toggle_interval ∧
      (merge_config p c).backspace_limit = p.backspace_limit ∧
      (merge_config p c).backend = p.backend ∧
      (merge_config p c).force_alternative_paste_shortcut =
        p.force_alternative_paste_shortcut ∧
      (merge_config p c).exclude_default_matches = p.exclude_default_matches) ∧
    (∀ s d : Configs,
      (merge_default s d).name = s.name ∧
      (merge_default s d).parent = s.parent ∧
      (merge_default s d).filter_title = s.filter_title ∧
      (merge_default s d).filter_class = s.filter_class ∧
      (merge_default s d).filter_exec = s.filter_exec ∧
      (merge_default s d).disabled = s.disabled ∧
      (merge_default s d).log_level = s.log_level ∧
      (merge_default s d).ipc_server_port = s.ipc_server_port ∧
      (merge_default s d).use_system_agent = s.use_system_agent ∧
      (merge_default s d).config_caching_interval = s.config_caching_interval ∧
      (merge_default s d).word_separators = s.word_separators ∧
      (merge_default s d).toggle_key = s.toggle_key ∧
      (merge_default s d).toggle_interval = s.toggle_interval ∧
      (merge_default s d).backspace_limit = s.backspace_limit ∧
      (merge_default s d).backend = s.backend ∧
      (merge_default s d).force_alternative_paste_shortcut =
        s.force_alternative_paste_shortcut ∧
      (merge_default s d).exclude_default_matches = s.exclude_default_matches) :=
  ⟨fun _ _ =>
    ⟨rfl, rfl, rfl, rfl, rfl, rfl, rfl, rfl, rfl, rfl, rfl, rfl, rfl, rfl, rfl, rfl, rfl⟩,
   fun _ _ =>
    ⟨rfl, rfl, rfl, rfl, rfl, rfl, rfl, rfl, rfl, rfl, rfl, rfl, rfl, rfl, rfl, rfl, rfl⟩⟩

/-- C9: merge idempotence.  Merging the same child a second time into
an already-merged parent changes nothing: the child's rules filter the
already-filtered remainder to itself and the child's own rules are all
swallowed by its own trigger set. -/
theorem C9_merge_idempotence (p c : Configs) :
    merge_config (merge_config p c) c = merge_config p c := by
  show ({ merge_config p c with
    matches' := c.matches' ++
      (merge_config p c).matches'.filter
        (fun m => !((trigger_set_of c.matches').contains m.trigger)) } : Configs) =
    merge_config p c
  have hm : c.matches' ++
      (merge_config p c).matches'.filter
        (fun m => !((trigger_set_of c.matches').contains m.trigger)) =
      (merge_config p c).matches' := by
    show c.matches' ++
        (c.matches' ++
          p.matches'.filter (fun m => !((trigger_set_of c.matches').contains m.trigger))).filter
          (fun m => !((trigger_set_of c.matches').contains m.trigger)) =
      c.matches' ++
        p.matches'.filter (fun m => !((trigger_set_of c.matches').contains m.trigger))
    rw [List.filter_append, filter_own_triggers_nil, List.nil_append, List.filter_filter]
    simp
  rw [hm]

/-! ## Lemmas about tree reduction -/

theorem reduce_children_congr {f g : Configs → Option Configs}
    (hfg : ∀ c r, f c = some r → g c = some r) :
    ∀ (cs : List Configs) (t : Configs) (r : Configs),
      reduce_children f t cs = some r → reduce_children g t cs = some r := by
  intro cs
  induction cs with
  | nil =>
    intro t r h
    exact h
  | cons c rest ih =>
    intro t r h
    unfold reduce_children at h ⊢
    cases hf : f c with
    | none => rw [hf] at h; cases h
    | some rc =>
      rw [hf] at h
      rw [hfg c rc hf]
      exact ih (merge_config t rc) r h

theorem reduce_configs_mono :
    ∀ (fuel fuel' : Nat), fuel ≤ fuel' →
      ∀ (t : Configs) (m : ChildrenMap) (r : Configs),
        reduce_configs fuel t m = some r → reduce_configs fuel' t m = some r := by
  intro fuel
  induction fuel with
  | zero =>
    intro fuel' _ t m r h
    simp [reduce_configs] at h
  | succ n ih =>
    intro fuel' hle t m r h
    cases fuel' with
    | zero => exact absurd hle (Nat.not_succ_le_zero n)
    | succ n' =>
      have hn : n ≤ n' := Nat.succ_le_succ_iff.mp hle
      unfold reduce_configs at h ⊢
      cases hc : childLookup m t.name with
      | none =>
        rw [hc] at h
        exact h
      | some cs =>
        rw [hc] at h
        exact reduce_children_congr (fun c r hcr => ih n' hn c m r hcr) cs t r h

theorem exists_uniform_fuel (m : ChildrenMap) :
    ∀ cs : List Configs,
      (∀ c ∈ cs, ∃ fuel r, reduce_configs fuel c m = some r) →
      ∃ fuel, ∀ c ∈ cs, ∃ r, reduce_configs fuel c m = some r := by
  intro cs
  induction cs with
  | nil =>
    intro _
    exact ⟨0, by simp⟩
  | cons c rest ih =>
    intro h
    obtain ⟨f1, r1, h1⟩ := h c (List.mem_cons_self c rest)
    obtain ⟨f2, h2⟩ := ih (fun x hx => h x (List.mem_cons_of_mem c hx))
    refine ⟨max f1 f2, ?_⟩
    intro x hx
    rcases List.mem_cons.mp hx with rfl | hx'
    · exact ⟨r1, reduce_configs_mono f1 (max f1 f2) (Nat.le_max_left f1 f2) x m r1 h1⟩
    · obtain ⟨r, hr⟩ := h2 x hx'
      exact ⟨r, reduce_configs_mono f2 (max f1 f2) (Nat.le_max_right f1 f2) x m r hr⟩

theorem reduce_children_total {f : Configs → Option Configs} :
    ∀ cs : List Configs, (∀ c ∈ cs, ∃ r, f c = some r) →
      ∀ t : Configs, ∃ r, reduce_children f t cs = some r := by
  intro cs
  induction cs with
  | nil =>
    intro _ t
    exact ⟨t, rfl⟩
  | cons c rest ih =>
    intro h t
    obtain ⟨rc, hrc⟩ := h c (List.mem_cons_self c rest)
    obtain ⟨r, hr⟩ := ih (fun x hx => h x (List.mem_cons_of_mem c hx)) (merge_config t rc)
    refine ⟨r, ?_⟩
    unfold reduce_children
    rw [hrc]
    exact hr

theorem reduce_total (m : ChildrenMap) (hwf : WellFounded (childEdge m)) :
    ∀ t : Configs, ∃ fuel r, reduce_configs fuel t m = some r := by
  intro t
  refine
    (hwf.induction
      (C := fun n => ∀ t' : Configs, t'.name = n →
        ∃ fuel r, reduce_configs fuel t' m = some r)
      t.name ?_) t rfl
  intro x ihx t' ht'
  cases hc : childLookup m t'.name with
  | none =>
    exact ⟨1, t', by simp [reduce_configs, hc]⟩
  | some cs =>
    have hchild : ∀ c ∈ cs, ∃ fuel r, reduce_configs fuel c m = some r := by
      intro c hcm
      refine ihx c.name ⟨cs, c, ?_, hcm, rfl⟩ c rfl
      rw [← ht']
      exact hc
    obtain ⟨F, hF⟩ := exists_uniform_fuel m cs hchild
    obtain ⟨r, hr⟩ :=
      reduce_children_total (f := fun c => reduce_configs F c m) cs hF t'
    refine ⟨F + 1, r, ?_⟩
    unfold reduce_configs
    rw [hc]
    exact hr

theorem cyc_diverges :
    ∀ fuel, reduce_configs fuel cycConfigA cycMap = none ∧
      reduce_configs fuel cycConfigB cycMap = none := by
  intro fuel
  induction fuel with
  | zero => exact ⟨rfl, rfl⟩
  | succ n ih =>
    have hA : childLookup cycMap cycConfigA.name = some [cycConfigB] := by decide
    have hB : childLookup cycMap cycConfigB.name = some [cycConfigA] := by decide
    constructor
    · unfold reduce_configs
      rw [hA]
      unfold reduce_children
      rw [ih.2]
    · unfold reduce_configs
      rw [hB]
      unfold reduce_children
      rw [ih.1]

theorem childEdge_empty_wf : WellFounded (childEdge ([] : ChildrenMap)) := by
  constructor
  intro a
  constructor
  intro y hy
  obtain ⟨cs, c, hcs, _, _⟩ := hy
  simp [childLookup] at hcs

/-! ## Claim C3: cycles and termination of the reduction -/

/-- C3 counterexample: the claim's own cycle example (two collected
documents, A's parent is B's name and B's parent is A's name) does NOT
make the reduction step of the load diverge.  Both cycle members are
non-root, so the reduction step only ever reduces the default root,
which has no children: the load returns successfully at fuel 1, with
the cycle documents silently dropped. -/
theorem C3_cycle_counterexample :
    loadModel defaultConfigs [(("a.yml"), cycConfigA), (("b.yml"), cycConfigB)] 1 =
      some (Except.ok (ConfigSet.mk defaultConfigs [])) := by decide

/-- C3 amended: `reduce_configs` itself recurses unboundedly when
invoked directly on a member of a parent-reference cycle (at every
fuel it is still recursing), while for every cycle-free children map
(one whose parent-child name relation is well founded) the reduction
terminates on every target.  During load, however, cycle members are
never roots, so the reduction step of the load does not reach them
(see the counterexample). -/
theorem C3_cycle_termination_amended :
    (∀ fuel, reduce_configs fuel cycConfigA cycMap = none) ∧
    (∀ m : ChildrenMap, WellFounded (childEdge m) →
      ∀ t : Configs, ∃ fuel r, reduce_configs fuel t m = some r) :=
  ⟨fun fuel => (cyc_diverges fuel).1, fun m hwf t => reduce_total m hwf t⟩

/-- Witness for C3: divergence observed at fuel 3 on the cycle member,
and termination on the empty (trivially cycle-free) children map. -/
theorem C3_cycle_termination_amended_witness :
    reduce_configs 3 cycConfigA cycMap = none ∧
    ∃ fuel r, reduce_configs fuel defaultConfigs ([] : ChildrenMap) = some r :=
  ⟨C3_cycle_termination_amended.1 3,
   C3_cycle_termination_amended.2 ([] : ChildrenMap) childEdge_empty_wf defaultConfigs⟩

/-! ## Lemmas about the load pipeline -/

theorem processEntries_cons_eq (path : String) (config : Configs)
    (rest : List (String × Configs)) (ns : List String) (cm : ChildrenMap)
    (rs : List Configs) :
    processEntries ((path, config) :: rest) ns cm rs =
      if validate_user_defined_config config = false then
        Except.error (ConfigLoadError.InvalidParameter path)
      else if ns.contains (resolved_name path config) then
        Except.error (ConfigLoadError.NameDuplicate path)
      else if config.parent = ("self") then
        processEntries rest (resolved_name path config :: ns) cm
          (rs ++ [{ config with name := resolved_name path config }])
      else
        processEntries rest (resolved_name path config :: ns)
          (mapInsert cm config.parent { config with name := resolved_name path config }) rs :=
  rfl

theorem reduce_children_name {f : Configs → Option Configs} :
    ∀ (cs : List Configs) (t r : Configs),
      reduce_children f t cs = some r → r.name = t.name := by
  intro cs
  induction cs with
  | nil =>
    intro t r h
    cases h
    rfl
  | cons c rest ih =>
    intro t r h
    unfold reduce_children at h
    cases hf : f c with
    | none => rw [hf] at h; cases h
    | some rc =>
      rw [hf] at h
      exact ih (merge_config t rc) r h

theorem reduce_configs_name :
    ∀ (fuel : Nat) (t : Configs) (m : ChildrenMap) (r : Configs),
      reduce_configs fuel t m = some r → r.name = t.name := by
  intro fuel t m r h
  cases fuel with
  | zero => simp [reduce_configs] at h
  | succ n =>
    unfold reduce_configs at h
    cases hc : childLookup m t.name with
    | none =>
      rw [hc] at h
      cases h
      rfl
    | some cs =>
      rw [hc] at h
      exact reduce_children_name cs t r h

theorem injectOne_name (d c : Configs) : (injectOne d c).name = c.name := by
  unfold injectOne
  split
  · rfl
  · rfl

theorem mapReduce_cons_inv {fuel : Nat} {m : ChildrenMap} {c : Configs}
    {cs : List Configs} {l : List Configs}
    (h : mapReduce fuel m (c :: cs) = some l) :
    ∃ r rs, l = r :: rs ∧ reduce_configs fuel c m = some r ∧
      mapReduce fuel m cs = some rs := by
  unfold mapReduce at h
  cases hr : reduce_configs fuel c m with
  | none => rw [hr] at h; cases h
  | some r =>
    rw [hr] at h
    cases hrs : mapReduce fuel m cs with
    | none => rw [hrs] at h; cases h
    | some rs =>
      rw [hrs] at h
      cases h
      exact ⟨r, rs, rfl, rfl, rfl⟩

theorem mapReduce_mem {fuel : Nat} {m : ChildrenMap} :
    ∀ {cs l : List Configs}, mapReduce fuel m cs = some l →
      ∀ c ∈ cs, ∃ r ∈ l, reduce_configs fuel c m = some r := by
  intro cs
  induction cs with
  | nil =>
    intro l _ c hc
    cases hc
  | cons c0 rest ih =>
    intro l h c hc
    obtain ⟨r, rs, rfl, hr, hrs⟩ := mapReduce_cons_inv h
    rcases List.mem_cons.mp hc with rfl | hc'
    · exact ⟨r, List.mem_cons_self r rs, hr⟩
    · obtain ⟨r', hr', hred⟩ := ih hrs c hc'
      exact ⟨r', List.mem_cons_of_mem r hr', hred⟩

theorem mapReduce_mem_rev {fuel : Nat} {m : ChildrenMap} :
    ∀ {cs l : List Configs}, mapReduce fuel m cs = some l →
      ∀ r ∈ l, ∃ c ∈ cs, reduce_configs fuel c m = some r := by
  intro cs
  induction cs with
  | nil =>
    intro l h r hr
    unfold mapReduce at h
    cases h
    cases hr
  | cons c0 rest ih =>
    intro l h r hr
    obtain ⟨r0, rs, rfl, hr0, hrs⟩ := mapReduce_cons_inv h
    rcases List.mem_cons.mp hr with rfl | hr'
    · exact ⟨c0, List.mem_cons_self c0 rest, hr0⟩
    · obtain ⟨c, hc, hred⟩ := ih hrs r hr'
      exact ⟨c, List.mem_cons_of_mem c0 hc, hred⟩

theorem contains_iff_mem (ns : List String) (x : String) :
    ns.contains x = true ↔ x ∈ ns := by
  have h : ns.contains x = decide (x ∈ ns) := List.elem_eq_mem x ns
  rw [h]
  simp

theorem processEntries_roots_append :
    ∀ (es : List (String × Configs)) (ns : List String) (cm : ChildrenMap)
      (rs : List Configs) (out : ChildrenMap × List Configs),
      processEntries es ns cm rs = Except.ok out →
      ∃ ext, out.2 = rs ++ ext ∧
        ∀ cfg ∈ ext, ∃ pc ∈ es, cfg.name = resolved_name pc.1 pc.2 := by
  intro es
  induction es with
  | nil =>
    intro ns cm rs out h
    unfold processEntries at h
    cases h
    exact ⟨[], by simp, by simp⟩
  | cons pc rest ih =>
    intro ns cm rs out h
    obtain ⟨path, config⟩ := pc
    rw [processEntries_cons_eq] at h
    by_cases hv : validate_user_defined_config config = false
    · rw [if_pos hv] at h; cases h
    · rw [if_neg hv] at h
      by_cases hdup : ns.contains (resolved_name path config) = true
      · rw [if_pos hdup] at h; cases h
      · rw [if_neg hdup] at h
        by_cases hroot : config.parent = ("self")
        · rw [if_pos hroot] at h
          obtain ⟨ext2, hout, hmem⟩ := ih _ _ _ _ h
          refine ⟨{ config with name := resolved_name path config } :: ext2, ?_, ?_⟩
          · rw [hout]
            simp
          · intro cfg hcfg
            rcases List.mem_cons.mp hcfg with rfl | hcfg'
            · exact ⟨(path, config), List.mem_cons_self _ _, rfl⟩
            · obtain ⟨pc2, hpc2, hname⟩ := hmem cfg hcfg'
              exact ⟨pc2, List.mem_cons_of_mem _ hpc2, hname⟩
        · rw [if_neg hroot] at h
          obtain ⟨ext2, hout, hmem⟩ := ih _ _ _ _ h
          refine ⟨ext2, hout, ?_⟩
          intro cfg hcfg
          obtain ⟨pc2, hpc2, hname⟩ := hmem cfg hcfg
          exact ⟨pc2, List.mem_cons_of_mem _ hpc2, hname⟩

theorem processEntries_root_mem :
    ∀ (es : List (String × Configs)) (ns : List String) (cm : ChildrenMap)
      (rs : List Configs) (out : ChildrenMap × List Configs)
      (path : String) (config : Configs),
      (path, config) ∈ es → config.parent = ("self") →
      processEntries es ns cm rs = Except.ok out →
      ∃ ext, out.2 = rs ++ ext ∧
        ∃ cfg ∈ ext, cfg.name = resolved_name path config := by
  intro es
  induction es with
  | nil =>
    intro ns cm rs out path config hmem _ _
    cases hmem
  | cons pc rest ih =>
    intro ns cm rs out path config hmem hparent h
    obtain ⟨path0, config0⟩ := pc
    rw [processEntries_cons_eq] at h
    by_cases hv : validate_user_defined_config config0 = false
    · rw [if_pos hv] at h; cases h
    · rw [if_neg hv] at h
      by_cases hdup : ns.contains (resolved_name path0 config0) = true
      · rw [if_pos hdup] at h; cases h
      · rw [if_neg hdup] at h
        rcases List.mem_cons.mp hmem with heq | hmem'
        · rw [Prod.mk.injEq] at heq
          obtain ⟨rfl, rfl⟩ := heq
          rw [if_pos hparent] at h
          obtain ⟨ext2, hout, _⟩ := processEntries_roots_append _ _ _ _ _ h
          refine ⟨{ config with name := resolved_name path config } :: ext2, ?_,
            { config with name := resolved_name path config },
            List.mem_cons_self _ _, rfl⟩
          rw [hout]
          simp
        · by_cases hroot0 : config0.parent = ("self")
          · rw [if_pos hroot0] at h
            obtain ⟨ext2, hout, cfg, hcfg, hname⟩ := ih _ _ _ _ path config hmem' hparent h
            refine ⟨{ config0 with name := resolved_name path0 config0 } :: ext2, ?_,
              cfg, List.mem_cons_of_mem _ hcfg, hname⟩
            rw [hout]
            simp
          · rw [if_neg hroot0] at h
            exact ih _ _ _ _ path config hmem' hparent h

theorem processEntries_ok_nodup :
    ∀ (es : List (String × Configs)) (ns : List String) (cm : ChildrenMap)
      (rs : List Configs) (out : ChildrenMap × List Configs),
      processEntries es ns cm rs = Except.ok out →
      (es.map (fun pc => resolved_name pc.1 pc.2)).Nodup ∧
      ∀ x ∈ es.map (fun pc => resolved_name pc.1 pc.2), ¬ x ∈ ns := by
  intro es
  induction es with
  | nil =>
    intro ns cm rs out _
    exact ⟨List.nodup_nil, by simp⟩
  | cons pc rest ih =>
    intro ns cm rs out h
    obtain ⟨path, config⟩ := pc
    rw [processEntries_cons_eq] at h
    by_cases hv : validate_user_defined_config config = false
    · rw [if_pos hv] at h; cases h
    · rw [if_neg hv] at h
      by_cases hdup : ns.contains (resolved_name path config) = true
      · rw [if_pos hdup] at h; cases h
      · rw [if_neg hdup] at h
        have hnotin : ¬ resolved_name path config ∈ ns := fun hm =>
          hdup ((contains_iff_mem ns (resolved_name path config)).mpr hm)
        have hrec :
            (rest.map (fun pc => resolved_name pc.1 pc.2)).Nodup ∧
            ∀ x ∈ rest.map (fun pc => resolved_name pc.1 pc.2),
              ¬ x ∈ resolved_name path config :: ns := by
          by_cases hroot : config.parent = ("self")
          · rw [if_pos hroot] at h
            exact ih _ _ _ _ h
          · rw [if_neg hroot] at h
            exact ih _ _ _ _ h
        obtain ⟨hnd, hns⟩ := hrec
        constructor
        · rw [List.map_cons]
          refine List.nodup_cons.mpr ⟨?_, hnd⟩
          intro hmem
          exact hns _ hmem (List.mem_cons_self _ _)
        · rw [List.map_cons]
          intro x hx
          rcases List.mem_cons.mp hx with rfl | hx'
          · exact hnotin
          · exact fun hxns => hns x hx' (List.mem_cons_of_mem _ hxns)

theorem processEntries_dup_error :
    ∀ (es : List (String × Configs)) (ns : List String) (cm : ChildrenMap)
      (rs : List Configs),
      (∀ pc ∈ es, validate_user_defined_config pc.2 = true) →
      (¬ (es.map (fun pc => resolved_name pc.1 pc.2)).Nodup ∨
        ∃ x ∈ es.map (fun pc => resolved_name pc.1 pc.2), x ∈ ns) →
      ∃ p ∈ es.map Prod.fst,
        processEntries es ns cm rs = Except.error (ConfigLoadError.NameDuplicate p) := by
  intro es
  induction es with
  | nil =>
    intro ns cm rs _ hbad
    rcases hbad with hnd | ⟨x, hx, _⟩
    · exact absurd List.nodup_nil hnd
    · cases hx
  | cons pc rest ih =>
    intro ns cm rs hval hbad
    obtain ⟨path, config⟩ := pc
    have hv : validate_user_defined_config config = true :=
      hval (path, config) (List.mem_cons_self _ _)
    have hvne : ¬ validate_user_defined_config config = false := by simp [hv]
    by_cases hdup : ns.contains (resolved_name path config) = true
    · refine ⟨path, by simp, ?_⟩
      rw [processEntries_cons_eq, if_neg hvne, if_pos hdup]
    · have hnotin : ¬ resolved_name path config ∈ ns := fun hm =>
        hdup ((contains_iff_mem ns (resolved_name path config)).mpr hm)
      have hbad' :
          ¬ (rest.map (fun pc => resolved_name pc.1 pc.2)).Nodup ∨
          ∃ x ∈ rest.map (fun pc => resolved_name pc.1 pc.2),
            x ∈ resolved_name path config :: ns := by
        rcases hbad with hnd | ⟨x, hx, hxns⟩
        · rw [List.map_cons, List.nodup_cons] at hnd
          by_cases hr0 : resolved_name path config ∈ rest.map (fun pc => resolved_name pc.1 pc.2)
          · exact Or.inr ⟨resolved_name path config, hr0, List.mem_cons_self _ _⟩
          · exact Or.inl (fun hnod => hnd ⟨hr0, hnod⟩)
        · rw [List.map_cons] at hx
          rcases List.mem_cons.mp hx with rfl | hx'
          · exact absurd hxns hnotin
          · exact Or.inr ⟨x, hx', List.mem_cons_of_mem _ hxns⟩
      have hvalrest : ∀ pc ∈ rest, validate_user_defined_config pc.2 = true :=
        fun pc hpc => hval pc (List.mem_cons_of_mem _ hpc)
      by_cases hroot : config.parent = ("self")
      · obtain ⟨p, hp, herr⟩ := ih _ _ _ hvalrest hbad'
        refine ⟨p, by simp [List.mem_cons]; exact Or.inr (by simpa using hp), ?_⟩
        rw [processEntries_cons_eq, if_neg hvne, if_neg hdup, if_pos hroot]
        exact herr
      · obtain ⟨p, hp, herr⟩ := ih _ _ _ hvalrest hbad'
        refine ⟨p, by simp [List.mem_cons]; exact Or.inr (by simpa using hp), ?_⟩
        rw [processEntries_cons_eq, if_neg hvne, if_neg hdup, if_neg hroot]
        exact herr

theorem processEntries_invalid_not_ok :
    ∀ (es : List (String × Configs)) (ns : List String) (cm : ChildrenMap)
      (rs : List Configs) (pc : String × Configs),
      pc ∈ es → validate_user_defined_config pc.2 = false →
      ∀ out, processEntries es ns cm rs ≠ Except.ok out := by
  intro es
  induction es with
  | nil =>
    intro ns cm rs pc hm _ _
    cases hm
  | cons pc0 rest ih =>
    intro ns cm rs pc hmem hval out h
    obtain ⟨path0, config0⟩ := pc0
    rw [processEntries_cons_eq] at h
    by_cases hv : validate_user_defined_config config0 = false
    · rw [if_pos hv] at h; cases h
    · rw [if_neg hv] at h
      have hmem' : pc ∈ rest := by
        rcases List.mem_cons.mp hmem with rfl | hm'
        · exact absurd hval hv
        · exact hm'
      by_cases hdup : ns.contains (resolved_name path0 config0) = true
      · rw [if_pos hdup] at h; cases h
      · rw [if_neg hdup] at h
        by_cases hroot : config0.parent = ("self")
        · rw [if_pos hroot] at h
          exact ih _ _ _ pc hmem' hval out h
        · rw [if_neg hroot] at h
          exact ih _ _ _ pc hmem' hval out h

theorem processEntries_invalid_param_src :
    ∀ (es : List (String × Configs)) (ns : List String) (cm : ChildrenMap)
      (rs : List Configs) (p : String),
      processEntries es ns cm rs = Except.error (ConfigLoadError.InvalidParameter p) →
      ∃ c, (p, c) ∈ es ∧ validate_user_defined_config c = false := by
  intro es
  induction es with
  | nil =>
    intro ns cm rs p h
    unfold processEntries at h
    cases h
  | cons pc0 rest ih =>
    intro ns cm rs p h
    obtain ⟨path0, config0⟩ := pc0
    rw [processEntries_cons_eq] at h
    by_cases hv : validate_user_defined_config config0 = false
    · rw [if_pos hv] at h
      cases h
      exact ⟨config0, List.mem_cons_self _ _, hv⟩
    · rw [if_neg hv] at h
      by_cases hdup : ns.contains (resolved_name path0 config0) = true
      · rw [if_pos hdup] at h
        cases h
      · rw [if_neg hdup] at h
        by_cases hroot : config0.parent = ("self")
        · rw [if_pos hroot] at h
          obtain ⟨c, hc, hcv⟩ := ih _ _ _ p h
          exact ⟨c, List.mem_cons_of_mem _ hc, hcv⟩
        · rw [if_neg hroot] at h
          obtain ⟨c, hc, hcv⟩ := ih _ _ _ p h
          exact ⟨c, List.mem_cons_of_mem _ hc, hcv⟩

theorem loadModel_ok_inv {dflt : Configs} {es : List (String × Configs)} {fuel : Nat}
    {cs : ConfigSet} (h : loadModel dflt es fuel = some (Except.ok cs)) :
    ∃ cm roots, processEntries es [] [] [dflt] = Except.ok (cm, roots) ∧
      ∃ d rest, mapReduce fuel cm roots = some (d :: rest) ∧
        cs = ConfigSet.mk d (rest.map (injectOne d)) := by
  unfold loadModel at h
  split at h
  · simp at h
  · rename_i cm roots heq
    split at h
    · simp at h
    · rename_i configs hmr
      cases configs with
      | nil => simp [partition_and_inject] at h
      | cons d rest =>
        simp only [partition_and_inject, Option.map_some', Option.some.injEq,
          Except.ok.injEq] at h
        exact ⟨cm, roots, heq, d, rest, hmr, h.symm⟩

theorem loadModel_error_inv {dflt : Configs} {es : List (String × Configs)} {fuel : Nat}
    {e : ConfigLoadError} (h : loadModel dflt es fuel = some (Except.error e)) :
    processEntries es [] [] [dflt] = Except.error e := by
  unfold loadModel at h
  split at h
  · rename_i e' heq
    simp only [Option.some.injEq, Except.error.injEq] at h
    rw [heq, h]
  · rename_i cm roots heq
    split at h
    · simp at h
    · rename_i configs hmr
      cases configs with
      | nil => simp [partition_and_inject] at h
      | cons d rest => simp [partition_and_inject] at h

theorem loadModel_of_processEntries_error {dflt : Configs} {es : List (String × Configs)}
    {fuel : Nat} {e : ConfigLoadError} (h : processEntries es [] [] [dflt] = Except.error e) :
    loadModel dflt es fuel = some (Except.error e) := by
  unfold loadModel
  rw [h]

/-! ## Claims about the load pipeline -/

/-- C4 counterexample: name uniqueness is NOT enforced against the
default document.  The default document's resolved name is never
inserted into the seen-name set, so a collected file declaring the
same name ("foo" here) is accepted and a ConfigSet is returned instead
of the NameDuplicate failure the claim requires. -/
theorem C4_name_uniqueness_counterexample :
    loadModel fooDefault [(("user.yml"), fooUser)] 1 =
      some (Except.ok (ConfigSet.mk fooDefault [fooUser])) := by decide

/-- C4 amended: name uniqueness is enforced only across the collected
documents, the default document excluded.  A successful load has
pairwise-distinct resolved names among the collected documents, and
when the collected resolved names contain a duplicate (and every
collected document passes validation, so the name check is reached)
the load fails with NameDuplicate carrying the path of an offending
collected file, and no ConfigSet is returned. -/
theorem C4_name_uniqueness_amended :
    (∀ (dflt : Configs) (entries : List (String × Configs)) (fuel : Nat) (cs : ConfigSet),
      loadModel dflt entries fuel = some (Except.ok cs) →
      (entries.map (fun pc => resolved_name pc.1 pc.2)).Nodup) ∧
    (∀ (dflt : Configs) (entries : List (String × Configs)) (fuel : Nat),
      (∀ pc ∈ entries, validate_user_defined_config pc.2 = true) →
      ¬ (entries.map (fun pc => resolved_name pc.1 pc.2)).Nodup →
      ∃ p ∈ entries.map Prod.fst,
        loadModel dflt entries fuel =
          some (Except.error (ConfigLoadError.NameDuplicate p))) := by
  constructor
  · intro dflt entries fuel cs hload
    obtain ⟨cm, roots, hpe, _⟩ := loadModel_ok_inv hload
    exact (processEntries_ok_nodup entries [] [] [dflt] (cm, roots) hpe).1
  · intro dflt entries fuel hval hnd
    obtain ⟨p, hp, herr⟩ :=
      processEntries_dup_error entries [] [] [dflt] hval (Or.inl hnd)
    exact ⟨p, hp, loadModel_of_processEntries_error herr⟩

/-- Witness for C4 amended: a successful singleton load has nodup
resolved names, and a concrete duplicate pair produces NameDuplicate. -/
theorem C4_name_uniqueness_amended_witness :
    ([(("a.yml"), helloExample)].map (fun pc => resolved_name pc.1 pc.2)).Nodup ∧
    ∃ p ∈ [(("a.yml"), dupX), (("b.yml"), dupX)].map Prod.fst,
      loadModel defaultConfigs [(("a.yml"), dupX), (("b.yml"), dupX)] 1 =
        some (Except.error (ConfigLoadError.NameDuplicate p)) :=
  ⟨C4_name_uniqueness_amended.1 defaultConfigs [(("a.yml"), helloExample)] 1
      (ConfigSet.mk defaultConfigs [{ helloExample with name := ("a.yml") }]) (by decide),
   C4_name_uniqueness_amended.2 defaultConfigs [(("a.yml"), dupX), (("b.yml"), dupX)] 1
      (by decide) (by decide)⟩

/-- C6: root-only field law.  A collected document that sets any
reserved field to a non-default value makes the load fail (the source
checks every collected document, root or not, so in particular every
non-root one); an InvalidParameter failure always carries the path of
a document that failed validation, never a different path; the
validator returns true exactly when all seven reserved fields equal
their documented defaults; and its error log accumulates every
offending reserved field in source order rather than stopping at the
first mismatch. -/
theorem C6_root_only_field_law :
    (∀ (dflt : Configs) (entries : List (String × Configs)) (fuel : Nat)
      (pc : String × Configs),
      pc ∈ entries → validate_user_defined_config pc.2 = false →
      ∀ cs : ConfigSet, loadModel dflt entries fuel ≠ some (Except.ok cs)) ∧
    (∀ (dflt : Configs) (entries : List (String × Configs)) (fuel : Nat) (p : String),
      loadModel dflt entries fuel =
        some (Except.error (ConfigLoadError.InvalidParameter p)) →
      ∃ c, (p, c) ∈ entries ∧ validate_user_defined_config c = false) ∧
    (∀ c : Configs, validate_user_defined_config c = true ↔
      (c.config_caching_interval = default_config_caching_interval ∧
       c.log_level = default_log_level ∧
       c.toggle_key = KeyModifier.default ∧
       c.toggle_interval = default_toggle_interval ∧
       c.backspace_limit = default_backspace_limit ∧
       c.ipc_server_port = default_ipc_server_port ∧
       c.use_system_agent = default_use_system_agent)) ∧
    (∀ c : Configs, (validate_user_defined_config_logged c).2 =
      ((reserved_field_checks c).filter (fun fc => !fc.2)).map Prod.fst) := by
  refine ⟨?_, ?_, ?_, ?_⟩
  · intro dflt entries fuel pc hmem hval cs hload
    obtain ⟨cm, roots, hpe, _⟩ := loadModel_ok_inv hload
    exact processEntries_invalid_not_ok entries [] [] [dflt] pc hmem hval (cm, roots) hpe
  · intro dflt entries fuel p hload
    exact processEntries_invalid_param_src entries [] [] [dflt] p (loadModel_error_inv hload)
  · intro c
    unfold validate_user_defined_config validate_user_defined_config_logged validate_field
    by_cases h1 : c.config_caching_interval = default_config_caching_interval <;>
      by_cases h2 : c.log_level = default_log_level <;>
      by_cases h3 : c.toggle_key = KeyModifier.default <;>
      by_cases h4 : c.toggle_interval = default_toggle_interval <;>
      by_cases h5 : c.backspace_limit = default_backspace_limit <;>
      by_cases h6 : c.ipc_server_port = default_ipc_server_port <;>
      by_cases h7 : c.use_system_agent = default_use_system_agent <;>
      simp [h1, h2, h3, h4, h5, h6, h7]
  · intro c
    unfold validate_user_defined_config_logged validate_field reserved_field_checks
    by_cases h1 : c.config_caching_interval = default_config_caching_interval <;>
      by_cases h2 : c.log_level = default_log_level <;>
      by_cases h3 : c.toggle_key = KeyModifier.default <;>
      by_cases h4 : c.toggle_interval = default_toggle_interval <;>
      by_cases h5 : c.backspace_limit = default_backspace_limit <;>
      by_cases h6 : c.ipc_server_port = default_ipc_server_port <;>
      by_cases h7 : c.use_system_agent = default_use_system_agent <;>
      simp [h1, h2, h3, h4, h5, h6, h7]

/-- Witness for C6: the reserved-field document is rejected, and the
all-defaults document validates. -/
theorem C6_root_only_field_law_witness :
    loadModel defaultConfigs [(("u.yml"), badReserved)] 1 ≠
      some (Except.ok (ConfigSet.mk defaultConfigs [])) ∧
    validate_user_defined_config defaultConfigs = true :=
  ⟨C6_root_only_field_law.1 defaultConfigs [(("u.yml"), badReserved)] 1
      ((("u.yml"), badReserved)) (by decide) (by decide)
      (ConfigSet.mk defaultConfigs []),
   (C6_root_only_field_law.2.2.1 defaultConfigs).mpr (by decide)⟩

/-- C8: name-defaulting law.  A collected document that declares no
name (its parsed name is the serde default "default") and is a root
takes the path string as its effective name, and that name shows up on
the corresponding entry of the specific list of a successful load. -/
theorem C8_name_defaulting_law
    (dflt : Configs) (entries : List (String × Configs)) (fuel : Nat) (cs : ConfigSet)
    (path : String) (config : Configs)
    (hmem : (path, config) ∈ entries)
    (hname : config.name = ("default"))
    (hparent : config.parent = ("self"))
    (hload : loadModel dflt entries fuel = some (Except.ok cs)) :
    path ∈ cs.specific.map Configs.name := by
  obtain ⟨cm, roots, hpe, d, rest, hmr, hcs⟩ := loadModel_ok_inv hload
  obtain ⟨ext, hroots, cfg, hcfg, hcfgname⟩ :=
    processEntries_root_mem entries [] [] [dflt] (cm, roots) path config hmem hparent hpe
  have hroots' : roots = dflt :: ext := by simpa using hroots
  rw [hroots'] at hmr
  obtain ⟨r0, rs0, hlist, hr0, hrs0⟩ := mapReduce_cons_inv hmr
  cases hlist
  obtain ⟨y, hy, hred⟩ := mapReduce_mem hrs0 cfg hcfg
  have hyname : y.name = path := by
    rw [reduce_configs_name fuel cfg cm y hred, hcfgname]
    unfold resolved_name
    rw [if_pos hname]
  rw [hcs]
  exact List.mem_map.mpr
    ⟨injectOne d y, List.mem_map_of_mem (injectOne d) hy,
      (injectOne_name d y).trans hyname⟩

/-- Witness for C8 at a concrete nameless document. -/
theorem C8_name_defaulting_law_witness :
    ("u.yml") ∈ (ConfigSet.mk defaultConfigs
      [{ noNameDoc with name := ("u.yml") }]).specific.map Configs.name :=
  C8_name_defaulting_law defaultConfigs [(("u.yml"), noNameDoc)] 1
    (ConfigSet.mk defaultConfigs [{ noNameDoc with name := ("u.yml") }])
    ("u.yml") noNameDoc (by decide) (by decide) (by decide) (by decide)

/-- C10: a collected document that declares the literal name "default"
is indistinguishable from one that declares no name: the defaulting
step compares the parsed name against the literal string, so the
effective name is always replaced by the path; consequently (as long
as no file path is itself the string "default") no collected document
ever reaches the specific list with the name "default". -/
theorem C10_default_name_indistinguishable :
    (∀ (path : String) (config : Configs),
      resolved_name path { config with name := ("default") } = path) ∧
    (∀ (dflt : Configs) (entries : List (String × Configs)) (fuel : Nat) (cs : ConfigSet),
      (∀ pc ∈ entries, pc.1 ≠ ("default")) →
      loadModel dflt entries fuel = some (Except.ok cs) →
      ¬ ("default") ∈ cs.specific.map Configs.name) := by
  constructor
  · intro path config
    unfold resolved_name
    rw [if_pos rfl]
  · intro dflt entries fuel cs hpaths hload hmem
    obtain ⟨cm, roots, hpe, d, rest, hmr, hcs⟩ := loadModel_ok_inv hload
    obtain ⟨ext, hroots, hextnames⟩ := processEntries_roots_append entries [] [] [dflt] _ hpe
    have hroots' : roots = dflt :: ext := by simpa using hroots
    rw [hroots'] at hmr
    obtain ⟨r0, rs0, hlist, hr0, hrs0⟩ := mapReduce_cons_inv hmr
    cases hlist
    rw [hcs] at hmem
    obtain ⟨s, hs, hsname⟩ := List.mem_map.mp hmem
    obtain ⟨y, hy, rfl⟩ := List.mem_map.mp hs
    obtain ⟨cfg, hcfgext, hredy⟩ := mapReduce_mem_rev hrs0 y hy
    have hcfgname : cfg.name = ("default") := by
      rw [← reduce_configs_name fuel cfg cm y hredy, ← injectOne_name d y]
      exact hsname
    obtain ⟨pc, hpcmem, hpcname⟩ := hextnames cfg hcfgext
    have hres : resolved_name pc.1 pc.2 = ("default") := by
      rw [← hpcname, hcfgname]
    unfold resolved_name at hres
    by_cases hd : pc.2.name = ("default")
    · rw [if_pos hd] at hres
      exact hpaths pc hpcmem hres
    · rw [if_neg hd] at hres
      exact hd hres

/-- Witness for C10 at a concrete path and a concrete load. -/
theorem C10_default_name_indistinguishable_witness :
    resolved_name ("p.yml") { defaultConfigs with name := ("default") } = ("p.yml") ∧
    ¬ ("default") ∈ (ConfigSet.mk defaultConfigs
      [{ noNameDoc with name := ("u.yml") }]).specific.map Configs.name :=
  ⟨C10_default_name_indistinguishable.1 ("p.yml") defaultConfigs,
   C10_default_name_indistinguishable.2 defaultConfigs [(("u.yml"), noNameDoc)] 1
     (ConfigSet.mk defaultConfigs [{ noNameDoc with name := ("u.yml") }])
     (by decide) (by decide)⟩

end Espanso
